import Mathlib

/-!
Shallow embedding of the trade-inference pipeline of
`src/jito_mempool_listener.py` (the Jito mempool SPL-token listener).

Numeric model: Python floats are modelled as exact rationals (ℚ); all the
divisions in the source are by powers of ten, so sign and zero tests agree
with the float code. Python `None` values are modelled as `Option`, and the
Python truthiness coercions (`x or []`, `x or 0`, `if decimals`) are made
explicit. The single uncaught exception path of `process_tx`
(`tx.signatures[0]` on an empty signature list, line 99) is modelled by
returning `Except.error`; every other failure in the source is caught by
the `try/except` around the lamport-delta computation and degrades to `0.0`.
-/

namespace Jito

/-- The `ui_token_amount` of a simulated token balance: the raw integer amount
(`amount`, a decimal string in the RPC response, parsed by `int(...)`) and
the token's `decimals`. `none` models a missing/null field, handled in the
source by `... or 0`. -/
structure UiTokenAmount where
  amount : Option Int
  decimals : Option Nat
deriving Repr, DecidableEq

/-- One entry of `pre_token_balances` / `post_token_balances`. -/
structure TokenBalance where
  mint : String
  owner : String
  uiTokenAmount : UiTokenAmount
deriving Repr, DecidableEq

/-- The `sim.value` of `rpc.simulate_transaction`: pre/post token balances and
pre/post lamport balances (index-aligned with the account list). `none`
models a null field, handled by `... or []` / `... or [0]*len(keys)`. -/
structure SimValue where
  preTokenBalances : Option (List TokenBalance)
  postTokenBalances : Option (List TokenBalance)
  preBalances : Option (List Int)
  postBalances : Option (List Int)
deriving Repr, DecidableEq

/-- The parts of a `VersionedTransaction` that `process_tx` reads: its
ordered account keys (as base58 strings) and its signature list. -/
structure Tx where
  accountKeys : List String
  signatures : List String
deriving Repr, DecidableEq

/-- The `TxRow` dataclass of the source (floats as ℚ). -/
structure TxRow where
  time : String
  side : String
  sol : ℚ
  token : ℚ
  price_sol : ℚ
  price_usd : ℚ
  sig : String
deriving Repr, DecidableEq

/-- Python `lst or [0] * len(keys)` for an optional lamport-balance list:
`None` and the empty list are falsy and are replaced by the zero list. -/
def orDefaultBalances (o : Option (List Int)) (n : Nat) : List Int :=
  match o with
  | none => List.replicate n 0
  | some l => if l.isEmpty then List.replicate n 0 else l

/-- Python `list.index`: index of the first occurrence, `none` when absent
(the source's `.index` raises there; the raise is caught by the
surrounding `try`). -/
def listIndex (o : String) : List String → Option Nat
  | [] => none
  | k :: rest => if k == o then some 0 else (listIndex o rest).map (· + 1)

/-- Line 106: `[b for b in (val.post_token_balances or []) if b.mint == str(target_mint)]`. -/
def tbPost (val : SimValue) (watched : String) : List TokenBalance :=
  (val.postTokenBalances.getD []).filter (fun b => b.mint == watched)

/-- Lines 111–114: `next((b for b in (val.pre_token_balances or []) if b.owner == token_post.owner), None)`.
The predicate compares owners only; it does not look at the mint. -/
def tokenPre (val : SimValue) (tp : TokenBalance) : Option TokenBalance :=
  (val.preTokenBalances.getD []).find? (fun b => b.owner == tp.owner)

/-- Line 118: `int((token_pre.ui_token_amount.amount if token_pre else 0) or 0)`. -/
def preAmount (val : SimValue) (tp : TokenBalance) : Int :=
  match tokenPre val tp with
  | some b => b.uiTokenAmount.amount.getD 0
  | none => 0

/-- Line 119's divisor: `10 ** decimals if decimals else 1`. -/
def tokenDivisor (decimals : Nat) : ℚ :=
  if decimals = 0 then 1 else 10 ^ decimals

/-- Lines 116–119: net token movement of the subject account, in ui units. -/
def tokenDelta (val : SimValue) (tp : TokenBalance) : ℚ :=
  let decimals := tp.uiTokenAmount.decimals.getD 0
  let postAmt := tp.uiTokenAmount.amount.getD 0
  ((postAmt - preAmount val tp : Int) : ℚ) / tokenDivisor decimals

/-- Lines 121–128: the owner's lamport delta in SOL. Any failure inside the
`try` block — owner string not an account key (`.index` raises), or an index
past the end of a provided balance list — yields `0.0` via the `except`. -/
def solDelta (tx : Tx) (val : SimValue) (tp : TokenBalance) : ℚ :=
  match listIndex tp.owner tx.accountKeys with
  | none => 0
  | some i =>
    let pre := orDefaultBalances val.preBalances tx.accountKeys.length
    let post := orDefaultBalances val.postBalances tx.accountKeys.length
    match pre[i]?, post[i]? with
    | some a, some b => ((b - a : Int) : ℚ) / (10 ^ 9 : ℚ)
    | _, _ => 0

/-- Function `process_tx` (lines 91–145). Inputs: the transaction, the simulation
snapshot (`none` models a falsy `sim.value`), the watched mint, the cached
SOL price, and the wall-clock string (the source calls `datetime.now`).
Line 99 `sig = str(tx.signatures[0])` runs before everything else and
raises `IndexError` on an empty signature list; that is the `Except.error`
branch. Everything after it is total. -/
def process_tx (tx : Tx) (sim : Option SimValue) (watched : String)
    (solPrice : ℚ) (now : String) : Except String (Option TxRow) :=
  match tx.signatures.head? with
  | none => Except.error "IndexError: tx.signatures is empty"
  | some sig =>
    Except.ok (match sim with
    | none => none
    | some val =>
      match (tbPost val watched).head? with
      | none => none
      | some token_post =>
        let td := tokenDelta val token_post
        let sd := solDelta tx val token_post
        if td = 0 ∧ sd = 0 then none
        else
          let side := if td > 0 then "Buy" else "Sell"
          let priceInSol := if td ≠ 0 then |sd| / |td| else 0
          some { time := now, side := side, sol := |sd|, token := |td|,
                 price_sol := priceInSol, price_usd := priceInSol * solPrice,
                 sig := sig })

/-- One cycle of `sol_price_refresher` (lines 165–170): the fetched value
`p` replaces the cache only when `p > 0`; a failed fetch returns `0.0`
(see `fetch_sol_price`) and leaves the cache unchanged. -/
def refresherStep (cached p : ℚ) : ℚ :=
  if 0 < p then p else cached

/-- The cached price after a run of refresh cycles whose fetches returned
`ps`, starting from the unconditionally stored startup fetch `init`
(line 162). -/
def refresherRun (init : ℚ) (ps : List ℚ) : ℚ :=
  ps.foldl refresherStep init

/-- The inference result the stream driver's inner loop observes for one
transaction, when `process_tx` does not raise. -/
def inferOk (simulate : Tx → Option SimValue) (watched : String) (price : ℚ)
    (now : String) (tx : Tx) : Option TxRow :=
  match process_tx tx (simulate tx) watched price now with
  | Except.ok r => r
  | Except.error _ => none

/-- The per-notification loop of `stream_mempool` (lines 184–188): for each
packet in order, run `process_tx` and append the row when one is returned.
An exception from `process_tx` propagates to the outer `try` and aborts the
rest of the notification, keeping the rows accumulated so far. -/
def notificationRows (simulate : Tx → Option SimValue) (watched : String)
    (price : ℚ) (now : String) : List Tx → List TxRow → Except String (List TxRow)
  | [], rows => Except.ok rows
  | tx :: rest, rows =>
    match process_tx tx (simulate tx) watched price now with
    | Except.error e => Except.error e
    | Except.ok none => notificationRows simulate watched price now rest rows
    | Except.ok (some row) =>
      notificationRows simulate watched price now rest (rows ++ [row])

/-- Modelled from the spec's step 4 wording, not from the source: the
pre-balance entry is the one "whose owner equals `ownerAccount` and whose
mint matches" the watched token. Used only to compare the claimed
selection rule with the source's owner-only `tokenPre`. -/
def tokenPreClaimed (val : SimValue) (tp : TokenBalance) (watched : String) :
    Option TokenBalance :=
  (val.preTokenBalances.getD []).find? (fun b => b.owner == tp.owner && b.mint == watched)

/-- The `preAmount` under the spec's claimed selection rule. -/
def preAmountClaimed (val : SimValue) (tp : TokenBalance) (watched : String) : Int :=
  match tokenPreClaimed val tp watched with
  | some b => b.uiTokenAmount.amount.getD 0
  | none => 0

/-- The `tokenDelta` under the spec's claimed selection rule. -/
def tokenDeltaClaimed (val : SimValue) (tp : TokenBalance) (watched : String) : ℚ :=
  let decimals := tp.uiTokenAmount.decimals.getD 0
  let postAmt := tp.uiTokenAmount.amount.getD 0
  ((postAmt - preAmountClaimed val tp watched : Int) : ℚ) / tokenDivisor decimals

/-- Function `process_tx` as the spec's step 4 describes it: identical to the source
except that the pre-balance entry is required to match the watched mint as
well as the owner. -/
def process_tx_claimed (tx : Tx) (sim : Option SimValue) (watched : String)
    (solPrice : ℚ) (now : String) : Except String (Option TxRow) :=
  match tx.signatures.head? with
  | none => Except.error "IndexError: tx.signatures is empty"
  | some sig =>
    Except.ok (match sim with
    | none => none
    | some val =>
      match (tbPost val watched).head? with
      | none => none
      | some token_post =>
        let td := tokenDeltaClaimed val token_post watched
        let sd := solDelta tx val token_post
        if td = 0 ∧ sd = 0 then none
        else
          let side := if td > 0 then "Buy" else "Sell"
          let priceInSol := if td ≠ 0 then |sd| / |td| else 0
          some { time := now, side := side, sol := |sd|, token := |td|,
                 price_sol := priceInSol, price_usd := priceInSol * solPrice,
                 sig := sig })

/-- Remap the mints of the pre-token-balance entries, leaving owners,
amounts and everything else untouched. Used to show the source's pre
selection ignores mints. -/
def mapPreMints (f : String → String) (val : SimValue) : SimValue :=
  { val with
    preTokenBalances :=
      val.preTokenBalances.map (List.map (fun b => { b with mint := f b.mint })) }

/-- The post-token-balance entries a snapshot carries (empty when the
snapshot or the list is absent). -/
def postList (sim : Option SimValue) : List TokenBalance :=
  match sim with
  | none => []
  | some val => val.postTokenBalances.getD []

/- Concrete inputs used by counterexamples and witnesses. Account keys,
owners and mints are abstract identifier strings. -/

/-- Spec Scenario A: post raw amount 1500000 with 6 decimals, no pre entry,
owner's lamports 2000000000 → 1950000000 at index 0. -/
def exSimA : SimValue :=
  ⟨none, some [⟨"M", "O", ⟨some 1500000, some 6⟩⟩],
   some [2000000000], some [1950000000]⟩

/-- The transaction for Scenario A: owner present in the account list. -/
def exTxA : Tx := ⟨["O"], ["s"]⟩

/-- The subject post-balance entry of Scenario A. -/
def tpA : TokenBalance := ⟨"M", "O", ⟨some 1500000, some 6⟩⟩

/-- A snapshot whose only pre entry shares the subject's owner but holds a
different mint `X`: the source still uses its amount as `preAmount`. -/
def exSimC1 : SimValue :=
  ⟨some [⟨"X", "O", ⟨some 10, some 0⟩⟩], some [⟨"M", "O", ⟨some 10, some 0⟩⟩],
   none, none⟩

/-- Transaction with one signature and an empty account list. -/
def exTxC1 : Tx := ⟨[], ["s"]⟩

/-- A transaction with no signatures: `tx.signatures[0]` raises. -/
def exTxNoSig : Tx := ⟨[], []⟩

/-- Token delta 0 (pre = post = 5 raw) with a nonzero lamport move. -/
def exSim4 : SimValue :=
  ⟨some [⟨"M", "O", ⟨some 5, some 0⟩⟩], some [⟨"M", "O", ⟨some 5, some 0⟩⟩],
   some [100], some [300]⟩

/-- Transaction whose single account is the subject owner. -/
def exTx4 : Tx := ⟨["O"], ["s"]⟩

/-- Token delta −2 (5 → 3 raw, 0 decimals), owner absent from the account
list. -/
def exSim5 : SimValue :=
  ⟨some [⟨"M", "O", ⟨some 5, some 0⟩⟩], some [⟨"M", "O", ⟨some 3, some 0⟩⟩],
   none, none⟩

/-- No net effect: token 5 → 5 raw, lamports 100 → 100. -/
def exSim8 : SimValue :=
  ⟨some [⟨"M", "O", ⟨some 5, some 0⟩⟩], some [⟨"M", "O", ⟨some 5, some 0⟩⟩],
   some [100], some [100]⟩

/-- A snapshot none of whose post entries carries the watched mint `M`. -/
def exSim9 : SimValue :=
  ⟨none, some [⟨"Z", "O", ⟨some 1, some 0⟩⟩], none, none⟩

/-- A snapshot provider for the driver example: only the transaction whose
account list is `["O"]` simulates to Scenario A, the others to no value. -/
def exSimulate : Tx → Option SimValue :=
  fun tx => if tx.accountKeys = ["O"] then some exSimA else none

/-- Three sibling transactions in one notification; only the middle one
infers to a trade under `exSimulate`. -/
def exTxs3 : List Tx := [⟨[], ["s1"]⟩, ⟨["O"], ["s2"]⟩, ⟨[], ["s3"]⟩]

/-- Once line 99 has a signature to read, every later step of `process_tx`
is total: the computation returns a value (possibly `none`). -/
theorem process_tx_total (tx : Tx) (sim : Option SimValue) (watched : String)
    (price : ℚ) (now : String) (h : tx.signatures ≠ []) :
    ∃ r, process_tx tx sim watched price now = Except.ok r := by
  match htx : tx.signatures with
  | [] => exact absurd htx h
  | s :: rest =>
    simp only [process_tx, htx, List.head?_cons]
    exact ⟨_, rfl⟩

/-- Claim C2 (amended): for every transaction with at least one signature
and every snapshot, including absent or partial ones, `process_tx` does not
raise — it returns either absent or a trade record. -/
theorem process_tx_no_raise (tx : Tx) (sim : Option SimValue) (watched : String)
    (price : ℚ) (now : String) (h : tx.signatures ≠ []) :
    ∃ r, process_tx tx sim watched price now = Except.ok r :=
  process_tx_total tx sim watched price now h

/-- Witness for `process_tx_no_raise` at a concrete input. -/
theorem process_tx_no_raise_witness :
    exTxC1.signatures ≠ [] ∧
    ∃ r, process_tx exTxC1 none "M" 0 "t" = Except.ok r :=
  ⟨by decide, process_tx_no_raise exTxC1 none "M" 0 "t" (by decide)⟩

/-- Claim C2 (counterexample to the claim as stated): on a transaction with
no signatures, line 99 `tx.signatures[0]` raises before any of the
degrade-to-absent logic runs, even on a well-formed snapshot. -/
theorem process_tx_empty_signatures_raises :
    process_tx exTxNoSig (some exSimA) "M" 1 "t" =
      Except.error "IndexError: tx.signatures is empty" := rfl

/-- Claim C8: when the computed token delta and the computed SOL delta are
both zero, `process_tx` returns absent. -/
theorem no_effect_returns_none (tx : Tx) (sim : Option SimValue) (watched : String)
    (price : ℚ) (now : String) (s : String) (val : SimValue) (tp : TokenBalance)
    (hsig : tx.signatures.head? = some s) (hsim : sim = some val)
    (hsub : (tbPost val watched).head? = some tp)
    (htd : tokenDelta val tp = 0) (hsd : solDelta tx val tp = 0) :
    process_tx tx sim watched price now = Except.ok none := by
  subst hsim
  simp [process_tx, hsig, hsub, htd, hsd]

/-- Witness for `no_effect_returns_none` at a concrete input. -/
theorem no_effect_returns_none_witness :
    tokenDelta exSim8 ⟨"M", "O", ⟨some 5, some 0⟩⟩ = 0 ∧
    solDelta exTx4 exSim8 ⟨"M", "O", ⟨some 5, some 0⟩⟩ = 0 ∧
    process_tx exTx4 (some exSim8) "M" 1 "t" = Except.ok none :=
  ⟨by norm_num [tokenDelta, preAmount, tokenPre, tokenDivisor, exSim8],
   by norm_num [solDelta, listIndex, orDefaultBalances, exTx4, exSim8],
   no_effect_returns_none exTx4 (some exSim8) "M" 1 "t" "s" exSim8 _ rfl rfl rfl
     (by norm_num [tokenDelta, preAmount, tokenPre, tokenDivisor, exSim8])
     (by norm_num [solDelta, listIndex, orDefaultBalances, exTx4, exSim8])⟩

/-- Claim C9: when no post-token-balance entry carries the watched mint
(in particular when the snapshot or its post list is absent), `process_tx`
returns absent. -/
theorem no_matching_mint_returns_none (tx : Tx) (sim : Option SimValue)
    (watched : String) (price : ℚ) (now : String) (s : String)
    (hsig : tx.signatures.head? = some s)
    (hmint : ∀ b ∈ postList sim, b.mint ≠ watched) :
    process_tx tx sim watched price now = Except.ok none := by
  cases sim with
  | none => simp [process_tx, hsig]
  | some val =>
    have hfil : tbPost val watched = [] := by
      rw [tbPost, List.filter_eq_nil_iff]
      intro b hb
      simpa using hmint b (by simpa [postList] using hb)
    simp [process_tx, hsig, hfil]

/-- Witness for `no_matching_mint_returns_none` at a concrete input. -/
theorem no_matching_mint_returns_none_witness :
    (∀ b ∈ postList (some exSim9), b.mint ≠ "M") ∧
    process_tx exTxC1 (some exSim9) "M" 1 "t" = Except.ok none :=
  ⟨by decide,
   no_matching_mint_returns_none exTxC1 (some exSim9) "M" 1 "t" "s" rfl (by decide)⟩

/-- The divisor of line 119 equals `max 1 (10 ^ decimals)` and is positive. -/
theorem tokenDivisor_eq_max (d : Nat) :
    tokenDivisor d = max 1 (10 ^ d) ∧ (0 : ℚ) < tokenDivisor d := by
  constructor
  · cases d with
    | zero => simp [tokenDivisor]
    | succ n =>
      have h1 : (1 : ℚ) ≤ 10 ^ (n + 1) := by
        calc (1 : ℚ) = 1 ^ (n + 1) := (one_pow _).symm
        _ ≤ 10 ^ (n + 1) := by
          exact pow_le_pow_left₀ (by norm_num) (by norm_num) _
      simp [tokenDivisor, max_eq_right h1]
  · rw [tokenDivisor]
    split
    · norm_num
    · exact pow_pos (by norm_num) _

/-- Claim C3: for a snapshot with a subject post-balance entry, the token
delta is `(postRawAmount - preAmount) / max(1, 10^decimals)` with `decimals`
read from the post entry; the divisor is positive, so decimals 0 yields
divisor 1 and never a division by zero. -/
theorem token_delta_divisor_max (watched : String) (val : SimValue)
    (tp : TokenBalance) (hsub : (tbPost val watched).head? = some tp) :
    tokenDelta val tp =
      ((tp.uiTokenAmount.amount.getD 0 - preAmount val tp : Int) : ℚ) /
        max 1 (10 ^ tp.uiTokenAmount.decimals.getD 0) ∧
    (0 : ℚ) < max 1 ((10 : ℚ) ^ tp.uiTokenAmount.decimals.getD 0) := by
  have h := tokenDivisor_eq_max (tp.uiTokenAmount.decimals.getD 0)
  constructor
  · rw [tokenDelta, ← h.1]
  · rw [← h.1]; exact h.2

/-- Witness for `token_delta_divisor_max` at Scenario A's input. -/
theorem token_delta_divisor_max_witness :
    (tbPost exSimA "M").head? = some tpA ∧
    (tokenDelta exSimA tpA =
        ((tpA.uiTokenAmount.amount.getD 0 - preAmount exSimA tpA : Int) : ℚ) /
          max 1 (10 ^ tpA.uiTokenAmount.decimals.getD 0) ∧
      (0 : ℚ) < max 1 ((10 : ℚ) ^ tpA.uiTokenAmount.decimals.getD 0)) :=
  ⟨rfl, token_delta_divisor_max "M" exSimA tpA rfl⟩

/-- Claim C4: a zero token delta with a nonzero SOL delta still yields a
trade record (the zero-effect early return does not fire), and its price
in SOL is the guarded `0`. -/
theorem zero_token_delta_trade (tx : Tx) (sim : Option SimValue) (watched : String)
    (price : ℚ) (now : String) (s : String) (val : SimValue) (tp : TokenBalance)
    (hsig : tx.signatures.head? = some s) (hsim : sim = some val)
    (hsub : (tbPost val watched).head? = some tp)
    (htd : tokenDelta val tp = 0) (hsd : solDelta tx val tp ≠ 0) :
    ∃ row, process_tx tx sim watched price now = Except.ok (some row) ∧
      row.price_sol = 0 := by
  subst hsim
  refine ⟨⟨now, "Sell", |solDelta tx val tp|, 0, 0, 0, s⟩, ?_, rfl⟩
  simp only [process_tx, hsig, hsub]
  rw [if_neg (by simp [htd, hsd])]
  norm_num [htd]

/-- Witness for `zero_token_delta_trade` at a concrete input. -/
theorem zero_token_delta_trade_witness :
    tokenDelta exSim4 ⟨"M", "O", ⟨some 5, some 0⟩⟩ = 0 ∧
    solDelta exTx4 exSim4 ⟨"M", "O", ⟨some 5, some 0⟩⟩ ≠ 0 ∧
    ∃ row, process_tx exTx4 (some exSim4) "M" 1 "t" = Except.ok (some row) ∧
      row.price_sol = 0 :=
  ⟨by norm_num [tokenDelta, preAmount, tokenPre, tokenDivisor, exSim4],
   by norm_num [solDelta, listIndex, orDefaultBalances, exTx4, exSim4],
   zero_token_delta_trade exTx4 (some exSim4) "M" 1 "t" "s" exSim4 _ rfl rfl rfl
     (by norm_num [tokenDelta, preAmount, tokenPre, tokenDivisor, exSim4])
     (by norm_num [solDelta, listIndex, orDefaultBalances, exTx4, exSim4])⟩

/-- Python `list.index` finds nothing when the sought key is absent. -/
theorem listIndex_eq_none_of_not_mem (o : String) (l : List String)
    (h : o ∉ l) : listIndex o l = none := by
  induction l with
  | nil => rfl
  | cons k rest ih =>
    have h1 : ¬(k == o) = true := by
      simp only [beq_iff_eq]
      intro e
      exact h (e ▸ List.mem_cons_self k rest)
    have h2 : o ∉ rest := fun m => h (List.mem_cons_of_mem _ m)
    simp [listIndex, h1, ih h2]

/-- Claim C5: when the subject owner is not among the transaction's account
keys, the SOL delta degrades to `0`; if moreover the token delta is `-2`,
the result is a `Sell` trade with `sol = 0` and `price_sol = 0`. -/
theorem owner_absent_sol_delta_zero (tx : Tx) (sim : Option SimValue)
    (watched : String) (price : ℚ) (now : String) (s : String) (val : SimValue)
    (tp : TokenBalance)
    (hsig : tx.signatures.head? = some s) (hsim : sim = some val)
    (hsub : (tbPost val watched).head? = some tp)
    (hown : tp.owner ∉ tx.accountKeys) :
    solDelta tx val tp = 0 ∧
    (tokenDelta val tp = -2 →
      process_tx tx sim watched price now =
        Except.ok (some ⟨now, "Sell", 0, 2, 0, 0, s⟩)) := by
  have hsd : solDelta tx val tp = 0 := by
    rw [solDelta, listIndex_eq_none_of_not_mem tp.owner tx.accountKeys hown]
  refine ⟨hsd, fun htd => ?_⟩
  subst hsim
  simp only [process_tx, hsig, hsub]
  rw [if_neg (by norm_num [htd])]
  norm_num [htd, hsd]

/-- Witness for `owner_absent_sol_delta_zero` at a concrete input. -/
theorem owner_absent_sol_delta_zero_witness :
    (("O" : String) ∉ exTxC1.accountKeys) ∧
    tokenDelta exSim5 ⟨"M", "O", ⟨some 3, some 0⟩⟩ = -2 ∧
    process_tx exTxC1 (some exSim5) "M" 1 "t" =
      Except.ok (some ⟨"t", "Sell", 0, 2, 0, 0, "s"⟩) :=
  ⟨by decide,
   by norm_num [tokenDelta, preAmount, tokenPre, tokenDivisor, exSim5],
   (owner_absent_sol_delta_zero exTxC1 (some exSim5) "M" 1 "t" "s" exSim5 _
      rfl rfl rfl (by decide)).2
     (by norm_num [tokenDelta, preAmount, tokenPre, tokenDivisor, exSim5])⟩

/-- Claim C1 (counterexample to the claim as stated): on a snapshot whose
only pre entry shares the subject's owner but holds a different mint, the
source takes that entry's amount as `preAmount` (so both deltas vanish and
the result is absent), while the claimed owner-and-mint rule would default
`preAmount` to 0 and emit a `Buy` trade. -/
theorem pre_balance_mint_not_checked_cex :
    process_tx exTxC1 (some exSimC1) "M" 1 "t" = Except.ok none ∧
    process_tx_claimed exTxC1 (some exSimC1) "M" 1 "t" =
      Except.ok (some ⟨"t", "Buy", 0, 10, 0, 0, "s"⟩) :=
  ⟨by norm_num [process_tx, tbPost, tokenDelta, preAmount, tokenPre, tokenDivisor,
      solDelta, listIndex, exSimC1, exTxC1],
   by norm_num [process_tx_claimed, tbPost, tokenDeltaClaimed, preAmountClaimed,
      tokenPreClaimed, tokenDivisor, solDelta, listIndex, exSimC1, exTxC1,
      (by decide : ("X" : String) ≠ "M")]⟩

/-- The owner-keyed pre lookup reads neither the mint nor any other field
a mint remap changes: mapping the mints of the searched list leaves the
amount that is extracted unchanged. -/
theorem preAmountList_map (f : String → String) (tp : TokenBalance)
    (l : List TokenBalance) :
    (match (l.map (fun b => { b with mint := f b.mint })).find?
        (fun b => b.owner == tp.owner) with
     | some b => b.uiTokenAmount.amount.getD 0
     | none => 0) =
    (match l.find? (fun b => b.owner == tp.owner) with
     | some b => b.uiTokenAmount.amount.getD 0
     | none => 0) := by
  induction l with
  | nil => rfl
  | cons b rest ih =>
    cases hb : b.owner == tp.owner with
    | false => simpa [List.find?_cons, hb] using ih
    | true => simp [List.find?_cons, hb]

/-- Remapping pre-entry mints does not change which pre entry is found:
the selection predicate reads owners only. -/
theorem preAmount_mapPreMints (f : String → String) (val : SimValue)
    (tp : TokenBalance) : preAmount (mapPreMints f val) tp = preAmount val tp := by
  rw [preAmount, preAmount, tokenPre, tokenPre]
  simp only [mapPreMints]
  cases hp : val.preTokenBalances with
  | none => simp [hp]
  | some l => simpa [hp] using preAmountList_map f tp l

/-- Remapping pre-entry mints does not change the token delta. -/
theorem tokenDelta_mapPreMints (f : String → String) (val : SimValue)
    (tp : TokenBalance) : tokenDelta (mapPreMints f val) tp = tokenDelta val tp := by
  rw [tokenDelta, tokenDelta, preAmount_mapPreMints]

/-- Claim C1 (amended): the pre-balance entry used for `preAmount` is the
first whose owner equals the subject's owner, with the mint ignored —
`process_tx` is invariant under remapping every pre-entry mint — and
`preAmount` defaults to 0 exactly when no pre entry has the subject's
owner. -/
theorem pre_balance_owner_only_selection (f : String → String) (tx : Tx)
    (sim : Option SimValue) (watched : String) (price : ℚ) (now : String)
    (val : SimValue) (tp : TokenBalance)
    (hpre : ∀ b ∈ val.preTokenBalances.getD [], b.owner ≠ tp.owner) :
    process_tx tx (Option.map (mapPreMints f) sim) watched price now =
      process_tx tx sim watched price now ∧
    preAmount val tp = 0 := by
  constructor
  · cases sim with
    | none => rfl
    | some v =>
      show process_tx tx (some (mapPreMints f v)) watched price now = _
      cases hs : tx.signatures.head? with
      | none => simp [process_tx, hs]
      | some s =>
        simp only [process_tx, hs]
        have hpost : tbPost (mapPreMints f v) watched = tbPost v watched := rfl
        rw [hpost]
        cases hp : (tbPost v watched).head? with
        | none => rfl
        | some tpv =>
          have hsd : solDelta tx (mapPreMints f v) tpv = solDelta tx v tpv := rfl
          simp only [tokenDelta_mapPreMints, hsd]
  · have hnone : tokenPre val tp = none := by
      rw [tokenPre, List.find?_eq_none]
      intro b hb
      simpa using hpre b hb
    rw [preAmount, hnone]

/-- Witness for `pre_balance_owner_only_selection` at a concrete input. -/
theorem pre_balance_owner_only_selection_witness :
    (∀ b ∈ exSimA.preTokenBalances.getD [], b.owner ≠ tpA.owner) ∧
    (process_tx exTxA (Option.map (mapPreMints (fun _ => "Q")) (some exSimA))
        "M" 1 "t" = process_tx exTxA (some exSimA) "M" 1 "t" ∧
      preAmount exSimA tpA = 0) :=
  ⟨by decide,
   pre_balance_owner_only_selection (fun _ => "Q") exTxA (some exSimA) "M" 1 "t"
     exSimA tpA (by decide)⟩

/-- Shifting the default past a cons: the last element of `a :: l` with
default `d` is the last element of `l` with default `a`. -/
theorem getLast?_getD_cons (l : List ℚ) (a d : ℚ) :
    ((a :: l).getLast?).getD d = (l.getLast?).getD a := by
  induction l generalizing a d with
  | nil => rfl
  | cons b t ih =>
    rw [List.getLast?_cons_cons]
    rw [ih b d, ih b a]

/-- The cached price after any run of refresh cycles is the latest positive
fetched value, or the unconditionally stored startup value when no cycle
fetched a positive value. -/
theorem refresherRun_eq_getLast (init : ℚ) (ps : List ℚ) :
    refresherRun init ps =
      ((ps.filter (fun p => decide (0 < p))).getLast?).getD init := by
  induction ps generalizing init with
  | nil => rfl
  | cons p rest ih =>
    rw [refresherRun, List.foldl_cons, List.filter_cons]
    by_cases hp : 0 < p
    · rw [if_pos (by simpa using hp)]
      rw [getLast?_getD_cons]
      rw [← ih p]
      rw [refresherRun, refresherStep, if_pos hp]
    · rw [if_neg (by simpa using hp)]
      rw [← ih init]
      rw [refresherRun, refresherStep, if_neg hp]

/-- If any fetch (the startup one included) returned a positive price, the
cache is positive forever after. -/
theorem refresherRun_pos (init : ℚ) (ps : List ℚ)
    (h : 0 < init ∨ ∃ x ∈ ps, 0 < x) : 0 < refresherRun init ps := by
  induction ps generalizing init with
  | nil => simpa [refresherRun] using h.resolve_right (by simp)
  | cons p rest ih =>
    rw [refresherRun, List.foldl_cons]
    show 0 < refresherRun (refresherStep init p) rest
    by_cases hp : 0 < p
    · exact ih (refresherStep init p) (Or.inl (by rwa [refresherStep, if_pos hp]))
    · rcases h with hi | ⟨x, hx, hxp⟩
      · exact ih (refresherStep init p) (Or.inl (by rwa [refresherStep, if_neg hp]))
      · rcases List.mem_cons.1 hx with rfl | hxr
        · exact absurd hxp hp
        · exact ih (refresherStep init p) (Or.inr ⟨x, hxr, hxp⟩)

/-- Claim C7: a failed fetch (`0.0`) leaves the cached price unchanged; the
cached price always equals the most recently fetched positive value
(falling back to the startup value), and is positive — hence not `0.0` —
as soon as any fetch has succeeded. -/
theorem price_cache_retention (init : ℚ) (ps : List ℚ) :
    refresherStep init 0 = init ∧
    refresherRun init ps =
      ((ps.filter (fun p => decide (0 < p))).getLast?).getD init ∧
    ((∃ x ∈ init :: ps, 0 < x) → 0 < refresherRun init ps) := by
  refine ⟨by rw [refresherStep, if_neg (lt_irrefl 0)], refresherRun_eq_getLast init ps, ?_⟩
  intro ⟨x, hx, hxp⟩
  rcases List.mem_cons.1 hx with rfl | hxr
  · exact refresherRun_pos x ps (Or.inl hxp)
  · exact refresherRun_pos init ps (Or.inr ⟨x, hxr, hxp⟩)

/-- Witness for `price_cache_retention`: three consecutive failed fetches
after a successful fetch of 5 leave the cache at 5, hence positive. -/
theorem price_cache_retention_witness :
    (∃ x ∈ (5 : ℚ) :: [0, 0, 0], 0 < x) ∧ 0 < refresherRun 5 [0, 0, 0] :=
  ⟨⟨5, by simp, by norm_num⟩,
   (price_cache_retention 5 [0, 0, 0]).2.2 ⟨5, by simp, by norm_num⟩⟩

/-- The notification loop is the order-preserving filter of the inference
results, appended to the rows accumulated so far, provided no transaction
in the notification has an empty signature list. -/
theorem notificationRows_filterMap (simulate : Tx → Option SimValue)
    (watched : String) (price : ℚ) (now : String) (txs : List Tx) :
    ∀ rows : List TxRow, (∀ tx ∈ txs, tx.signatures ≠ []) →
    notificationRows simulate watched price now txs rows =
      Except.ok (rows ++ txs.filterMap (inferOk simulate watched price now)) := by
  induction txs with
  | nil => intro rows h; simp [notificationRows]
  | cons tx rest ih =>
    intro rows h
    have htx : tx.signatures ≠ [] := h tx (List.mem_cons_self _ _)
    have hrest : ∀ t ∈ rest, t.signatures ≠ [] :=
      fun t ht => h t (List.mem_cons_of_mem _ ht)
    obtain ⟨r, hr⟩ := process_tx_total tx (simulate tx) watched price now htx
    have hio : inferOk simulate watched price now tx = r := by
      rw [inferOk, hr]
    cases r with
    | none =>
      rw [notificationRows, hr, List.filterMap_cons_none hio]
      exact ih rows hrest
    | some row =>
      rw [notificationRows, hr, List.filterMap_cons_some hio]
      have happ : rows ++ row :: rest.filterMap (inferOk simulate watched price now)
          = (rows ++ [row]) ++ rest.filterMap (inferOk simulate watched price now) := by
        simp
      rw [happ]
      exact ih (rows ++ [row]) hrest

/-- Claim C6: the batch a notification produces is exactly the trades of
the transactions whose inference is non-absent, one each, in the order the
transactions were received. -/
theorem notification_batch_filter (simulate : Tx → Option SimValue)
    (watched : String) (price : ℚ) (now : String) (txs : List Tx)
    (h : ∀ tx ∈ txs, tx.signatures ≠ []) :
    notificationRows simulate watched price now txs [] =
      Except.ok (txs.filterMap (inferOk simulate watched price now)) := by
  simpa using notificationRows_filterMap simulate watched price now txs [] h

/-- Witness for `notification_batch_filter`: a notification of three
transactions of which only the middle one infers to a trade. -/
theorem notification_batch_filter_witness :
    (∀ tx ∈ exTxs3, tx.signatures ≠ []) ∧
    notificationRows exSimulate "M" 2 "t" exTxs3 [] =
      Except.ok (exTxs3.filterMap (inferOk exSimulate "M" 2 "t")) :=
  ⟨by decide, notification_batch_filter exSimulate "M" 2 "t" exTxs3 (by decide)⟩

/-- Claim C10: every trade record `process_tx` returns is well-formed: its
`sol`, `token` and `price_sol` are non-negative absolute values, its side
is exactly `"Buy"` or `"Sell"`, and `price_usd` is `price_sol` times the
supplied current price. -/
theorem txrow_well_formed (tx : Tx) (sim : Option SimValue) (watched : String)
    (price : ℚ) (now : String) (row : TxRow)
    (h : process_tx tx sim watched price now = Except.ok (some row)) :
    0 ≤ row.sol ∧ 0 ≤ row.token ∧ 0 ≤ row.price_sol ∧
    (row.side = "Buy" ∨ row.side = "Sell") ∧
    row.price_usd = row.price_sol * price := by
  simp only [process_tx] at h
  split at h
  · exact absurd h (by simp)
  · rw [Except.ok.injEq] at h
    split at h
    · exact absurd h (by simp)
    · split at h
      · exact absurd h (by simp)
      · split at h
        · exact absurd h (by simp)
        · rw [Option.some_inj] at h
          subst h
          dsimp only
          refine ⟨abs_nonneg _, abs_nonneg _, ?_, ?_, rfl⟩
          · split
            · exact div_nonneg (abs_nonneg _) (abs_nonneg _)
            · exact le_refl 0
          · split
            · exact Or.inl rfl
            · exact Or.inr rfl

/-- Witness for `txrow_well_formed` at Scenario A's input, where the
returned row is `Buy` of 1.5 tokens for 0.05 SOL at price 1/30 SOL. -/
theorem txrow_well_formed_witness :
    process_tx exTxA (some exSimA) "M" 2 "t" =
      Except.ok (some ⟨"t", "Buy", 1/20, 3/2, 1/30, 1/15, "s"⟩) ∧
    (0 ≤ (1 / 20 : ℚ) ∧ 0 ≤ (3 / 2 : ℚ) ∧ 0 ≤ (1 / 30 : ℚ) ∧
      (("Buy" : String) = "Buy" ∨ ("Buy" : String) = "Sell") ∧
      (1 / 15 : ℚ) = 1 / 30 * 2) :=
  ⟨by norm_num [process_tx, tbPost, tokenDelta, preAmount, tokenPre, tokenDivisor,
      solDelta, listIndex, orDefaultBalances, exSimA, exTxA, abs_of_nonneg,
      abs_of_nonpos],
   txrow_well_formed exTxA (some exSimA) "M" 2 "t" ⟨"t", "Buy", 1/20, 3/2, 1/30, 1/15, "s"⟩
     (by norm_num [process_tx, tbPost, tokenDelta, preAmount, tokenPre, tokenDivisor,
        solDelta, listIndex, orDefaultBalances, exSimA, exTxA, abs_of_nonneg,
        abs_of_nonpos])⟩

end Jito
